import Mathlib

/-
Verification of the lifers cellular-automaton core.

The Rust sources (grid.rs, life.rs, conways.rs, lenia.rs) are embedded
shallowly: cell buffers are lists of natural numbers standing for the u8
vectors, loops become folds over explicit index lists, and the u16
accumulator of the weighted convolution is modelled with reduction
mod 65536 at each addition.  Assertion failures are modelled with Option.
-/

namespace Lifers

/-- Flat row-major offset of a cell, from grid_index in life.rs
(and the identical Grid.index in grid.rs): row * cols + col. -/
def grid_index (row col cols : Nat) : Nat := row * cols + col

/-- Toroidal boundary adjustment applied to a raw isize coordinate, as in
the neighbor loops of life.rs: a coordinate below 0 becomes n - 1, a
coordinate at or past n becomes 0, anything else is kept. -/
def wrap (x : Int) (n : Nat) : Int :=
  if x < 0 then (n : Int) - 1 else if (n : Int) ≤ x then 0 else x

/-- The three coordinates (x-1)..=(x+1) visited by each neighbor loop,
over the integers exactly as the Rust loops run over isize. -/
def neighborRange (x : Nat) : List Int := [(x : Int) - 1, (x : Int), (x : Int) + 1]

/-- Contribution of one loop iteration (i, j) to the live-neighbor count of
grid_count_neighbors_conways in life.rs: in toroidal mode the wrapped cell
is read and counted unless the unwrapped (i, j) is the center; in bounded
mode out-of-range (i, j) are skipped, the center is skipped, and the cell
counts when its value is at least 1. -/
def count_term (cells : List Nat) (rows cols : Nat) (toric : Bool)
    (row col : Nat) (i j : Int) : Nat :=
  if toric then
    if ¬(i = (row : Int) ∧ j = (col : Int)) ∧
        1 ≤ cells.getD (grid_index (wrap i rows).toNat (wrap j cols).toNat cols) 0
    then 1 else 0
  else
    if 0 ≤ i ∧ i < (rows : Int) ∧ 0 ≤ j ∧ j < (cols : Int) ∧
        ¬(i = (row : Int) ∧ j = (col : Int)) ∧
        1 ≤ cells.getD (grid_index i.toNat j.toNat cols) 0
    then 1 else 0

/-- grid_count_neighbors_conways from life.rs (Grid.count_neighbors in
grid.rs has the identical body): the double loop over the 3 by 3 window
accumulating count_term. -/
def grid_count_neighbors_conways (row col : Nat) (cells : List Nat)
    (rows cols : Nat) (toric : Bool) : Nat :=
  List.foldl (fun acc i =>
    List.foldl (fun acc2 j => acc2 + count_term cells rows cols toric row col i j)
      acc (neighborRange col)) 0 (neighborRange row)

/-- Filter lookup of the convolution in life.rs:
filter[(i - row + 1) as usize * 3 + (j - col + 1) as usize]. -/
def filter_weight (filter : List Nat) (row col : Nat) (i j : Int) : Nat :=
  filter.getD ((i - (row : Int) + 1).toNat * 3 + (j - (col : Int) + 1).toNat) 0

/-- Contribution of one loop iteration (i, j) to the weighted sum of
grid_convolution_neighbors_lenia in life.rs, as an exact natural number:
neighbor value times filter weight, with the same center and bounds
guards as the source. -/
def conv_term (cells : List Nat) (rows cols : Nat) (toric : Bool)
    (filter : List Nat) (row col : Nat) (i j : Int) : Nat :=
  if toric then
    if ¬(i = (row : Int) ∧ j = (col : Int)) then
      cells.getD (grid_index (wrap i rows).toNat (wrap j cols).toNat cols) 0 *
        filter_weight filter row col i j
    else 0
  else
    if 0 ≤ i ∧ i < (rows : Int) ∧ 0 ≤ j ∧ j < (cols : Int) then
      if ¬(i = (row : Int) ∧ j = (col : Int)) then
        cells.getD (grid_index i.toNat j.toNat cols) 0 *
          filter_weight filter row col i j
      else 0
    else 0

/-- grid_convolution_neighbors_lenia from life.rs with the u16 semantics of
the source: weighted_sum is a u16, so every addition is reduced mod 65536.
The product of the two u8-to-u16 casts itself never wraps for byte
operands, so the term is added exactly. -/
def grid_convolution_neighbors_lenia (row col : Nat) (cells : List Nat)
    (rows cols : Nat) (toric : Bool) (filter : List Nat) : Nat :=
  List.foldl (fun acc i =>
    List.foldl (fun acc2 j =>
      (acc2 + conv_term cells rows cols toric filter row col i j) % 65536)
      acc (neighborRange col)) 0 (neighborRange row)

/-- The exact mathematical weighted sum the convolution is meant to
compute: the same double loop without any accumulator wrap-around.
The computed u16 value agrees with this exactly when no overflow occurs. -/
def grid_convolution_exact (row col : Nat) (cells : List Nat)
    (rows cols : Nat) (toric : Bool) (filter : List Nat) : Nat :=
  List.foldl (fun acc i =>
    List.foldl (fun acc2 j =>
      acc2 + conv_term cells rows cols toric filter row col i j)
      acc (neighborRange col)) 0 (neighborRange row)

/-- The per-cell transition of grid_update_conways in life.rs (and of
Grid.update in grid.rs), translated from the match on
(current value, neighbor count):
(cell, 2) | (cell, 3) if cell > 1 gives cell; (_, 3) gives 1; else 0. -/
def conways_next_cell (cell neighbors_count : Nat) : Nat :=
  if (neighbors_count = 2 ∨ neighbors_count = 3) ∧ cell > 1 then cell
  else if neighbors_count = 3 then 1 else 0

/-- The write sweep of grid_update_conways in life.rs: for every (row, col)
in row-major order, store the transition value into the scratch buffer at
grid_index row col cols, reading only the untouched current buffer. -/
def conways_write (cur : List Nat) (rows cols : Nat) (toric : Bool)
    (buf : List Nat) : List Nat :=
  List.foldl (fun b row =>
    List.foldl (fun b2 col =>
      b2.set (grid_index row col cols)
        (conways_next_cell (cur.getD (grid_index row col cols) 0)
          (grid_count_neighbors_conways row col cur rows cols toric)))
      b (List.range cols))
    buf (List.range rows)

/-- grid_update_conways from life.rs: fill the scratch buffer by the sweep,
then swap the two buffers; the pair is (new current, new scratch). -/
def grid_update_conways (current_cells next_cells : List Nat)
    (rows cols : Nat) (toric : Bool) : List Nat × List Nat :=
  (conways_write current_cells rows cols toric next_cells, current_cells)

/-- The pure next-generation function: one application maps a snapshot of
the current buffer to the full newly computed generation, cell by cell.
This is the specification-level function the double-buffered update is
compared against. -/
def conways_next_gen (cells : List Nat) (rows cols : Nat) (toric : Bool) : List Nat :=
  List.map (fun idx =>
    conways_next_cell (cells.getD idx 0)
      (grid_count_neighbors_conways (idx / cols) (idx % cols) cells rows cols toric))
    (List.range (rows * cols))

/-- grid_set_cell_state from life.rs (Grid.set_cell_state in grid.rs is
identical): overwrite the entry at grid_index row col cols. -/
def grid_set_cell_state (row col : Nat) (alive : Nat)
    (current_cells : List Nat) (cols : Nat) : List Nat :=
  current_cells.set (grid_index row col cols) alive

/-- grid_toggle_cell_state from life.rs (Grid.toggle_cell_state in grid.rs
is identical): a value of at least 1 becomes 0, anything else becomes 1. -/
def grid_toggle_cell_state (row col : Nat) (current_cells : List Nat)
    (cols : Nat) : List Nat :=
  current_cells.set (grid_index row col cols)
    (if 1 ≤ current_cells.getD (grid_index row col cols) 0 then 0 else 1)

/-- grid_is_alive from life.rs: the stored value is at least 1. -/
def grid_is_alive (row col : Nat) (current_cells : List Nat) (cols : Nat) : Bool :=
  decide (1 ≤ current_cells.getD (grid_index row col cols) 0)

/-- The Grid structure of grid.rs: two same-length buffers, dimensions and
the toroidal flag. -/
structure Grid where
  current_cells : List Nat
  next_cells : List Nat
  rows : Nat
  cols : Nat
  toricgrid : Bool

/-- Grid.set_cell_state from grid.rs. -/
def Grid.set_cell_state (g : Grid) (row col : Nat) (alive : Nat) : Grid :=
  { g with current_cells := grid_set_cell_state row col alive g.current_cells g.cols }

/-- Grid.toggle_cell_state from grid.rs. -/
def Grid.toggle_cell_state (g : Grid) (row col : Nat) : Grid :=
  { g with current_cells := grid_toggle_cell_state row col g.current_cells g.cols }

/-- Grid.is_alive from grid.rs. -/
def Grid.is_alive (g : Grid) (row col : Nat) : Bool :=
  grid_is_alive row col g.current_cells g.cols

/-- Grid.count_neighbors from grid.rs; its body is the one embedded as
grid_count_neighbors_conways. -/
def Grid.count_neighbors (g : Grid) (row col : Nat) : Nat :=
  grid_count_neighbors_conways row col g.current_cells g.rows g.cols g.toricgrid

/-- Grid.update from grid.rs; its inline body is the one embedded as
grid_update_conways, ending in the buffer swap. -/
def Grid.update (g : Grid) : Grid :=
  { g with
    current_cells := (grid_update_conways g.current_cells g.next_cells g.rows g.cols g.toricgrid).1,
    next_cells := (grid_update_conways g.current_cells g.next_cells g.rows g.cols g.toricgrid).2 }

/-- The default ring filter of lenia.rs: all eight non-center weights 1,
center weight 0. -/
def ring_filter : List Nat := [1, 1, 1, 1, 0, 1, 1, 1, 1]

/-- The LeniaGrid structure of lenia.rs.  The color mapper field is a pure
presentation concern and is not part of the embedding. -/
structure LeniaGrid where
  current_cells : List Nat
  next_cells : List Nat
  rows : Nat
  cols : Nat
  toricgrid : Bool
  filter : List Nat
  neighbors_filter : Nat
  growth_function : Nat → Nat

/-- LeniaGrid.set_filter from lenia.rs: the loop counts the entries whose
value equals 1, asserts that this count is positive (assertion failure is
modelled as none), then stores the count and the filter. -/
def LeniaGrid.set_filter (g : LeniaGrid) (filter : List Nat) : Option LeniaGrid :=
  let count_neighbors : Nat :=
    List.foldl (fun acc v => if v = 1 then acc + 1 else acc) 0 filter
  if 0 < count_neighbors then
    some { g with neighbors_filter := count_neighbors, filter := filter }
  else none

/-- ConwaysGrid.new_random from conways.rs (Grid.new_random in grid.rs is
identical).  The external rand call gen_range(0..2) draws a value below 2;
the thread rng is modelled as an arbitrary stream rng with its k-th draw
reduced mod 2, which realizes exactly the output range of the call. -/
def conways_new_random (rng : Nat → Nat) (rows cols : Nat) (toric : Bool) : Grid :=
  { current_cells := List.map (fun k => rng k % 2) (List.range (rows * cols)),
    next_cells := List.replicate (rows * cols) 0,
    rows := rows, cols := cols, toricgrid := toric }

/-- LeniaGrid.new_random from lenia.rs.  The external rand call
gen_range(0..255) draws a value below 255, modelled as the k-th draw of an
arbitrary stream reduced mod 255.  The default growth function of the
source is a floating-point Gaussian; it never touches the cell buffer at
construction time and is stood in for by the identity here. -/
def lenia_new_random (rng : Nat → Nat) (rows cols : Nat) (toric : Bool) : LeniaGrid :=
  { current_cells := List.map (fun k => rng k % 255) (List.range (rows * cols)),
    next_cells := List.replicate (rows * cols) 0,
    rows := rows, cols := cols, toricgrid := toric,
    filter := ring_filter, neighbors_filter := 8,
    growth_function := fun v => v }

/-- A concrete 3 by 3 LeniaGrid in its post-construction default state,
used to exercise set_filter. -/
def lenia_test_grid : LeniaGrid :=
  { current_cells := List.replicate 9 0, next_cells := List.replicate 9 0,
    rows := 3, cols := 3, toricgrid := true,
    filter := ring_filter, neighbors_filter := 8,
    growth_function := fun v => v }

/-- A concrete 3 by 3 bounded grid holding a horizontal blinker line. -/
def blinker_grid : Grid :=
  { current_cells := [0, 0, 0, 1, 1, 1, 0, 0, 0],
    next_cells := List.replicate 9 0,
    rows := 3, cols := 3, toricgrid := false }

/-- Application of a list of (index, value) writes to a buffer, left to
right; the abstract form of the update sweep. -/
def writes_apply (ws : List (Nat × Nat)) (buf : List Nat) : List Nat :=
  List.foldl (fun b w => b.set w.1 w.2) buf ws

/-- The row-major list of writes performed for one row of the sweep. -/
def row_writes (cur : List Nat) (rows cols : Nat) (toric : Bool)
    (row : Nat) : List (Nat × Nat) :=
  List.map (fun col => (grid_index row col cols,
    conways_next_cell (cur.getD (grid_index row col cols) 0)
      (grid_count_neighbors_conways row col cur rows cols toric)))
    (List.range cols)


/-! Helper lemmas about list reads and writes. -/

/-- Reading back the just-written index of a set. -/
theorem getD_set_self (l : List Nat) (i a : Nat) (h : i < l.length) :
    (l.set i a).getD i 0 = a := by
  rw [List.getD_eq_getElem?_getD, List.getElem?_set_eq_of_lt a h]; rfl

/-- Reading any other index of a set. -/
theorem getD_set_ne (l : List Nat) (i j a : Nat) (h : i ≠ j) :
    (l.set i a).getD j 0 = l.getD j 0 := by
  rw [List.getD_eq_getElem?_getD, List.getElem?_set_ne h, ← List.getD_eq_getElem?_getD]

/-- A defaulted read is bounded by any bound on the elements of the list. -/
theorem getD_le_of_forall (l : List Nat) (n B : Nat) (h : ∀ v ∈ l, v ≤ B) :
    l.getD n 0 ≤ B := by
  rw [List.getD_eq_getElem?_getD]
  cases hn : l[n]? with
  | none => simp
  | some a => exact h a (List.getElem?_mem hn)

/-! Lemmas about the neighbor-count terms. -/

/-- Each loop iteration contributes at most 1 to the neighbor count. -/
theorem count_term_le_one (cells : List Nat) (rows cols : Nat) (toric : Bool)
    (row col : Nat) (i j : Int) :
    count_term cells rows cols toric row col i j ≤ 1 := by
  unfold count_term
  split
  · split <;> omega
  · split <;> omega

/-- The center iteration contributes nothing to the neighbor count. -/
theorem count_term_center (cells : List Nat) (rows cols : Nat) (toric : Bool)
    (row col : Nat) :
    count_term cells rows cols toric row col (row : Int) (col : Int) = 0 := by
  unfold count_term
  split <;> simp

/-! Lemmas about the convolution terms and accumulators. -/

/-- The computed u16 convolution equals the exact weighted sum reduced
mod 65536: the wrap-arounds of the running u16 sum commute with the
additions. -/
theorem conv_u16_eq_exact_mod (row col : Nat) (cells : List Nat) (rows cols : Nat)
    (toric : Bool) (filter : List Nat) :
    grid_convolution_neighbors_lenia row col cells rows cols toric filter
      = grid_convolution_exact row col cells rows cols toric filter % 65536 := by
  simp only [grid_convolution_neighbors_lenia, grid_convolution_exact, neighborRange, List.foldl]
  omega

/-- Each convolution term is bounded by the product of a cell bound and a
weight bound. -/
theorem conv_term_le (cells : List Nat) (rows cols : Nat) (toric : Bool)
    (filter : List Nat) (row col : Nat) (i j : Int) (B W : Nat)
    (hcells : ∀ v ∈ cells, v ≤ B) (hfilter : ∀ w ∈ filter, w ≤ W) :
    conv_term cells rows cols toric filter row col i j ≤ B * W := by
  unfold conv_term filter_weight
  have h1 := getD_le_of_forall cells
    (grid_index (wrap i rows).toNat (wrap j cols).toNat cols) B hcells
  have h2 := getD_le_of_forall cells (grid_index i.toNat j.toNat cols) B hcells
  have h3 := getD_le_of_forall filter
    ((i - (row : Int) + 1).toNat * 3 + (j - (col : Int) + 1).toNat) W hfilter
  split
  · split
    · exact Nat.mul_le_mul h1 h3
    · exact Nat.zero_le _
  · split
    · split
      · exact Nat.mul_le_mul h2 h3
      · exact Nat.zero_le _
    · exact Nat.zero_le _

/-- The center iteration contributes nothing to the weighted sum. -/
theorem conv_term_center (cells : List Nat) (rows cols : Nat) (toric : Bool)
    (filter : List Nat) (row col : Nat) :
    conv_term cells rows cols toric filter row col (row : Int) (col : Int) = 0 := by
  unfold conv_term
  split <;> simp

/-- With byte cells and weights at most 32, the exact weighted sum of the
eight off-center terms is at most 8 times 255 times 32. -/
theorem conv_exact_le (row col : Nat) (cells : List Nat) (rows cols : Nat)
    (toric : Bool) (filter : List Nat)
    (hcells : ∀ v ∈ cells, v ≤ 255) (hfilter : ∀ w ∈ filter, w ≤ 32) :
    grid_convolution_exact row col cells rows cols toric filter ≤ 65280 := by
  have h1 := conv_term_le cells rows cols toric filter row col ((row : Int) - 1) ((col : Int) - 1) 255 32 hcells hfilter
  have h2 := conv_term_le cells rows cols toric filter row col ((row : Int) - 1) ((col : Int)) 255 32 hcells hfilter
  have h3 := conv_term_le cells rows cols toric filter row col ((row : Int) - 1) ((col : Int) + 1) 255 32 hcells hfilter
  have h4 := conv_term_le cells rows cols toric filter row col ((row : Int)) ((col : Int) - 1) 255 32 hcells hfilter
  have h5 := conv_term_center cells rows cols toric filter row col
  have h6 := conv_term_le cells rows cols toric filter row col ((row : Int)) ((col : Int) + 1) 255 32 hcells hfilter
  have h7 := conv_term_le cells rows cols toric filter row col ((row : Int) + 1) ((col : Int) - 1) 255 32 hcells hfilter
  have h8 := conv_term_le cells rows cols toric filter row col ((row : Int) + 1) ((col : Int)) 255 32 hcells hfilter
  have h9 := conv_term_le cells rows cols toric filter row col ((row : Int) + 1) ((col : Int) + 1) 255 32 hcells hfilter
  simp only [grid_convolution_exact, neighborRange, List.foldl]
  omega

/-- The loop of set_filter counts exactly the entries equal to 1. -/
theorem count_ones_foldl (l : List Nat) (n : Nat) :
    List.foldl (fun acc v => if v = 1 then acc + 1 else acc) n l = n + l.count 1 := by
  induction l generalizing n with
  | nil => simp
  | cons a t ih =>
    rw [List.foldl_cons, ih, List.count_cons]
    by_cases h : a = 1 <;> simp [h] <;> omega

/-! Characterization of the update sweep as a list of index writes. -/

/-- Unfolding one write. -/
theorem writes_apply_cons (a : Nat × Nat) (t : List (Nat × Nat)) (buf : List Nat) :
    writes_apply (a :: t) buf = writes_apply t (buf.set a.1 a.2) := rfl

/-- Writes split over list append. -/
theorem writes_apply_append (l1 l2 : List (Nat × Nat)) (buf : List Nat) :
    writes_apply (l1 ++ l2) buf = writes_apply l2 (writes_apply l1 buf) :=
  List.foldl_append _ _ _ _

/-- Writes never change the buffer length. -/
theorem writes_apply_length (ws : List (Nat × Nat)) (buf : List Nat) :
    (writes_apply ws buf).length = buf.length := by
  induction ws generalizing buf with
  | nil => rfl
  | cons a t ih => rw [writes_apply_cons, ih, List.length_set]

/-- An index touched by no write keeps its value. -/
theorem writes_apply_getD_of_not_mem (ws : List (Nat × Nat)) (buf : List Nat) (j : Nat)
    (h : ∀ w ∈ ws, w.1 ≠ j) :
    (writes_apply ws buf).getD j 0 = buf.getD j 0 := by
  induction ws generalizing buf with
  | nil => rfl
  | cons a t ih =>
    rw [writes_apply_cons, ih _ (fun w hw => h w (List.mem_cons_of_mem a hw)),
      getD_set_ne _ _ _ _ (h a (List.mem_cons_self a t))]

/-- An in-bounds index written with a single value holds that value. -/
theorem writes_apply_getD_of_mem (ws : List (Nat × Nat)) (buf : List Nat) (i v : Nat)
    (hmem : (i, v) ∈ ws) (huniq : ∀ w ∈ ws, w.1 = i → w.2 = v) (hi : i < buf.length) :
    (writes_apply ws buf).getD i 0 = v := by
  induction ws generalizing buf with
  | nil => cases hmem
  | cons a t ih =>
    rw [writes_apply_cons]
    by_cases hmt : (i, v) ∈ t
    · exact ih (buf.set a.1 a.2) hmt (fun w hw h1 => huniq w (List.mem_cons_of_mem a hw) h1)
        (by rw [List.length_set]; exact hi)
    · have ha : a = (i, v) := by
        rcases List.mem_cons.mp hmem with h | h
        · exact h.symm
        · exact absurd h hmt
      subst ha
      have hnone : ∀ w ∈ t, w.1 ≠ i := by
        intro w hw h1
        have h2 := huniq w (List.mem_cons_of_mem _ hw) h1
        apply hmt
        have hw2 : w = (i, v) := by
          obtain ⟨w1, w2⟩ := w
          simp only at h1 h2
          rw [h1, h2]
        rw [← hw2]
        exact hw
      rw [writes_apply_getD_of_not_mem t _ i hnone]
      exact getD_set_self buf i v hi

/-- A fold of per-row write batches is the write list of their
concatenation. -/
theorem foldl_writes (rs : List Nat) (f : Nat → List (Nat × Nat)) (buf : List Nat) :
    List.foldl (fun b r => writes_apply (f r) b) buf rs
      = writes_apply (rs.flatMap f) buf := by
  induction rs generalizing buf with
  | nil => rfl
  | cons a t ih =>
    rw [List.flatMap_cons, writes_apply_append, List.foldl_cons]
    exact ih _

/-- The nested update loops are the row-major write list. -/
theorem conways_write_eq_writes (cur : List Nat) (rows cols : Nat) (toric : Bool)
    (buf : List Nat) :
    conways_write cur rows cols toric buf
      = writes_apply ((List.range rows).flatMap (row_writes cur rows cols toric)) buf := by
  have h : ∀ (b : List Nat) (row : Nat),
      writes_apply (row_writes cur rows cols toric row) b
        = List.foldl (fun b2 col =>
            b2.set (grid_index row col cols)
              (conways_next_cell (cur.getD (grid_index row col cols) 0)
                (grid_count_neighbors_conways row col cur rows cols toric))) b (List.range cols) := by
    intro b row
    unfold writes_apply row_writes
    rw [List.foldl_map]
  rw [← foldl_writes]
  unfold conways_write
  simp only [h]

/-- An in-range position maps below rows times cols. -/
theorem grid_index_lt (row col rows cols : Nat) (hrow : row < rows) (hcol : col < cols) :
    grid_index row col cols < rows * cols := by
  unfold grid_index
  calc row * cols + col < row * cols + cols := by omega
    _ = (row + 1) * cols := by ring
    _ ≤ rows * cols := Nat.mul_le_mul_right _ hrow

/-- Row-major indexing is injective on in-range columns. -/
theorem grid_index_inj (r c r2 c2 cols : Nat) (hc : c < cols) (hc2 : c2 < cols)
    (h : grid_index r c cols = grid_index r2 c2 cols) : r = r2 ∧ c = c2 := by
  unfold grid_index at h
  have hcc : c = c2 := by
    have h1 := congrArg (· % cols) h
    simpa [Nat.mul_add_mod', Nat.mod_eq_of_lt hc, Nat.mod_eq_of_lt hc2] using h1
  subst hcc
  have hmul : r * cols = r2 * cols := by omega
  exact ⟨Nat.eq_of_mul_eq_mul_right (by omega) hmul, rfl⟩

/-- The sweep never changes the buffer length. -/
theorem conways_write_length (cur : List Nat) (rows cols : Nat) (toric : Bool)
    (buf : List Nat) :
    (conways_write cur rows cols toric buf).length = buf.length := by
  rw [conways_write_eq_writes, writes_apply_length]

/-- Every in-range cell of the swept buffer holds the transition value
computed from the untouched input snapshot. -/
theorem conways_write_getD (cur buf : List Nat) (rows cols : Nat) (toric : Bool)
    (row col : Nat) (hrow : row < rows) (hcol : col < cols)
    (hlen : buf.length = rows * cols) :
    (conways_write cur rows cols toric buf).getD (grid_index row col cols) 0
      = conways_next_cell (cur.getD (grid_index row col cols) 0)
          (grid_count_neighbors_conways row col cur rows cols toric) := by
  rw [conways_write_eq_writes]
  apply writes_apply_getD_of_mem
  · exact List.mem_flatMap.mpr ⟨row, List.mem_range.mpr hrow,
      List.mem_map.mpr ⟨col, List.mem_range.mpr hcol, rfl⟩⟩
  · intro w hw h1
    obtain ⟨r, hr, hw2⟩ := List.mem_flatMap.mp hw
    obtain ⟨c, hcmem, rfl⟩ := List.mem_map.mp hw2
    obtain ⟨hre, hce⟩ := grid_index_inj r c row col cols (List.mem_range.mp hcmem) hcol h1
    subst hre; subst hce; rfl
  · rw [hlen]
    exact grid_index_lt row col rows cols hrow hcol

/-- The pure next generation has exactly rows times cols cells. -/
theorem conways_next_gen_length (cells : List Nat) (rows cols : Nat) (toric : Bool) :
    (conways_next_gen cells rows cols toric).length = rows * cols := by
  simp [conways_next_gen]

/-- The sweep over a correctly sized scratch buffer produces exactly the
pure next generation of the input snapshot. -/
theorem conways_write_eq_next_gen (cur buf : List Nat) (rows cols : Nat) (toric : Bool)
    (hlen : buf.length = rows * cols) :
    conways_write cur rows cols toric buf = conways_next_gen cur rows cols toric := by
  apply List.ext_getElem
  · rw [conways_write_length, hlen, conways_next_gen_length]
  · intro k h1 h2
    have hk : k < rows * cols := by
      rw [conways_next_gen_length] at h2; exact h2
    have hcols : 0 < cols := by
      rcases Nat.eq_zero_or_pos cols with h | h
      · rw [h, Nat.mul_zero] at hk; omega
      · exact h
    have hrow : k / cols < rows := (Nat.div_lt_iff_lt_mul hcols).mpr hk
    have hcol : k % cols < cols := Nat.mod_lt _ hcols
    have hidx : grid_index (k / cols) (k % cols) cols = k := by
      unfold grid_index
      rw [Nat.mul_comm]
      exact Nat.div_add_mod k cols
    have h3 := conways_write_getD cur buf rows cols toric (k / cols) (k % cols) hrow hcol hlen
    rw [hidx] at h3
    rw [← List.getD_eq_getElem _ 0 h1, h3]
    unfold conways_next_gen
    rw [List.getElem_map, List.getElem_range]

/-! Claim theorems. -/

/-- Claim C1: the discrete update assigns every in-range cell its value
under the literal rule: a current value above 1 with 2 or 3 live
neighbors is preserved verbatim; otherwise a neighbor count of exactly 3
gives 1; otherwise 0.  In particular a stored value of exactly 1 with 2
live neighbors dies. -/
theorem conways_update_literal_rule (current_cells next_cells : List Nat)
    (rows cols : Nat) (toric : Bool) (row col : Nat)
    (hrow : row < rows) (hcol : col < cols)
    (hlen : next_cells.length = rows * cols) :
    ((grid_update_conways current_cells next_cells rows cols toric).1).getD
        (grid_index row col cols) 0
      = conways_next_cell (current_cells.getD (grid_index row col cols) 0)
          (grid_count_neighbors_conways row col current_cells rows cols toric)
    ∧ (∀ cell count, 1 < cell → (count = 2 ∨ count = 3) →
        conways_next_cell cell count = cell)
    ∧ (∀ cell count, ¬(1 < cell ∧ (count = 2 ∨ count = 3)) → count = 3 →
        conways_next_cell cell count = 1)
    ∧ (∀ cell count, ¬(1 < cell ∧ (count = 2 ∨ count = 3)) → count ≠ 3 →
        conways_next_cell cell count = 0)
    ∧ conways_next_cell 1 2 = 0 := by
  refine ⟨conways_write_getD current_cells next_cells rows cols toric row col hrow hcol hlen,
    ?_, ?_, ?_, rfl⟩
  · intro cell count h1 h2
    unfold conways_next_cell
    rw [if_pos ⟨h2, h1⟩]
  · intro cell count h1 h2
    unfold conways_next_cell
    rw [if_neg (by tauto), if_pos h2]
  · intro cell count h1 h2
    unfold conways_next_cell
    rw [if_neg (by tauto), if_neg h2]

/-- Witness for claim C1 on a concrete 3 by 3 toroidal grid. -/
theorem conways_update_literal_rule_witness :
    ((grid_update_conways [0, 0, 0, 1, 0, 1, 0, 0, 0] (List.replicate 9 0) 3 3 true).1).getD
        (grid_index 1 1 3) 0
      = conways_next_cell (([0, 0, 0, 1, 0, 1, 0, 0, 0] : List Nat).getD (grid_index 1 1 3) 0)
          (grid_count_neighbors_conways 1 1 [0, 0, 0, 1, 0, 1, 0, 0, 0] 3 3 true) :=
  (conways_update_literal_rule [0, 0, 0, 1, 0, 1, 0, 0, 0] (List.replicate 9 0) 3 3 true 1 1
    (by decide) (by decide) (by decide)).1

/-- Claim C2 counterexample: the filter [2, 0, ..., 0] contains a non-zero
weight, yet set_filter fails (the loop counts only entries equal to 1, and
there are none). -/
theorem set_filter_nonzero_claim_counterexample :
    (∃ w ∈ ([2, 0, 0, 0, 0, 0, 0, 0, 0] : List Nat), w ≠ 0)
    ∧ LeniaGrid.set_filter lenia_test_grid [2, 0, 0, 0, 0, 0, 0, 0, 0] = none :=
  ⟨⟨2, by decide, by decide⟩, rfl⟩

/-- Claim C2 as amended: set_filter fails exactly when the filter has no
entry equal to 1; when at least one entry equals 1 it succeeds, stores the
filter, and caches the number of entries equal to 1. -/
theorem set_filter_ones_amended (g : LeniaGrid) (filter : List Nat) :
    (LeniaGrid.set_filter g filter = none ↔ filter.count 1 = 0)
    ∧ (0 < filter.count 1 →
        LeniaGrid.set_filter g filter
          = some { g with neighbors_filter := filter.count 1, filter := filter }) := by
  have hrw : LeniaGrid.set_filter g filter
      = if 0 < filter.count 1 then
          some { g with neighbors_filter := filter.count 1, filter := filter }
        else none := by
    simp only [LeniaGrid.set_filter, count_ones_foldl, Nat.zero_add]
  rw [hrw]
  constructor
  · constructor
    · intro h
      by_contra hc
      rw [if_pos (by omega)] at h
      cases h
    · intro h
      rw [if_neg (by omega)]
  · intro h
    rw [if_pos h]

/-- Witness for the amended claim C2: the default ring filter succeeds and
caches the count 8. -/
theorem set_filter_ones_amended_witness :
    LeniaGrid.set_filter lenia_test_grid ring_filter
      = some { lenia_test_grid with neighbors_filter := 8, filter := ring_filter } :=
  (set_filter_ones_amended lenia_test_grid ring_filter).2 (by decide)

/-- Claim C3 counterexample: with byte cells and byte weights all 255 at
the center of a bounded 3 by 3 grid, the exact weighted sum is 520200,
above the u16 maximum 65535, and the computed u16 value differs from it:
overflow is not structurally prevented for weights up to 255. -/
theorem convolution_overflow_counterexample :
    (∀ w ∈ (List.replicate 9 255 : List Nat), w ≤ 255)
    ∧ (∀ v ∈ (List.replicate 9 255 : List Nat), v ≤ 255)
    ∧ 65535 < grid_convolution_exact 1 1 (List.replicate 9 255) 3 3 false (List.replicate 9 255)
    ∧ grid_convolution_neighbors_lenia 1 1 (List.replicate 9 255) 3 3 false (List.replicate 9 255)
        ≠ grid_convolution_exact 1 1 (List.replicate 9 255) 3 3 false (List.replicate 9 255) := by
  decide

/-- Claim C3 as amended: for byte cells and filter weights at most 32, the
exact weighted sum stays at or below the u16 maximum 65535, so the u16
accumulator never wraps and the computed value equals the exact sum. -/
theorem convolution_no_overflow_amended (row col : Nat) (cells : List Nat)
    (rows cols : Nat) (toric : Bool) (filter : List Nat)
    (hcells : ∀ v ∈ cells, v ≤ 255) (hfilter : ∀ w ∈ filter, w ≤ 32) :
    grid_convolution_exact row col cells rows cols toric filter ≤ 65535
    ∧ grid_convolution_neighbors_lenia row col cells rows cols toric filter
        = grid_convolution_exact row col cells rows cols toric filter := by
  have hle := conv_exact_le row col cells rows cols toric filter hcells hfilter
  refine ⟨by omega, ?_⟩
  rw [conv_u16_eq_exact_mod]
  exact Nat.mod_eq_of_lt (by omega)

/-- Witness for the amended claim C3 on the ring filter. -/
theorem convolution_no_overflow_amended_witness :
    grid_convolution_exact 1 1 [1, 2, 3, 4, 5, 6, 7, 8, 9] 3 3 false ring_filter ≤ 65535
    ∧ grid_convolution_neighbors_lenia 1 1 [1, 2, 3, 4, 5, 6, 7, 8, 9] 3 3 false ring_filter
        = grid_convolution_exact 1 1 [1, 2, 3, 4, 5, 6, 7, 8, 9] 3 3 false ring_filter :=
  convolution_no_overflow_amended 1 1 [1, 2, 3, 4, 5, 6, 7, 8, 9] 3 3 false ring_filter
    (by decide) (by decide)

/-- Claim C4: the double-buffered update equals one application of the pure
next-generation function on the prior snapshot; after the swap the scratch
buffer is the old snapshot, and a second update computes the pure function
of the new generation. -/
theorem update_refines_pure_next_gen (g : Grid)
    (hc : g.current_cells.length = g.rows * g.cols)
    (hn : g.next_cells.length = g.rows * g.cols) :
    (g.update).current_cells = conways_next_gen g.current_cells g.rows g.cols g.toricgrid
    ∧ (g.update).next_cells = g.current_cells
    ∧ (g.update.update).current_cells
        = conways_next_gen (conways_next_gen g.current_cells g.rows g.cols g.toricgrid)
            g.rows g.cols g.toricgrid := by
  have h1 : (g.update).current_cells
      = conways_next_gen g.current_cells g.rows g.cols g.toricgrid :=
    conways_write_eq_next_gen g.current_cells g.next_cells g.rows g.cols g.toricgrid hn
  refine ⟨h1, rfl, ?_⟩
  have h2 : (g.update.update).current_cells
      = conways_write (g.update).current_cells g.rows g.cols g.toricgrid
          (g.update).next_cells := rfl
  have h3 : (g.update).next_cells = g.current_cells := rfl
  rw [h2, h1, h3]
  exact conways_write_eq_next_gen _ g.current_cells g.rows g.cols g.toricgrid hc

/-- Witness for claim C4 on the concrete blinker grid. -/
theorem update_refines_pure_next_gen_witness :
    (blinker_grid.update).current_cells = conways_next_gen blinker_grid.current_cells 3 3 false
    ∧ (blinker_grid.update).next_cells = blinker_grid.current_cells
    ∧ (blinker_grid.update.update).current_cells
        = conways_next_gen (conways_next_gen blinker_grid.current_cells 3 3 false) 3 3 false :=
  update_refines_pure_next_gen blinker_grid (by decide) (by decide)

/-- Claim C5: on the 3 by 3 grid [1..9] with the ring filter, the weighted
convolution is 40 at (1,1) and 23 at (1,0) bounded, and 41 at (1,0)
toroidal. -/
theorem convolution_literal_values :
    grid_convolution_neighbors_lenia 1 1 [1, 2, 3, 4, 5, 6, 7, 8, 9] 3 3 false ring_filter = 40
    ∧ grid_convolution_neighbors_lenia 1 0 [1, 2, 3, 4, 5, 6, 7, 8, 9] 3 3 false ring_filter = 23
    ∧ grid_convolution_neighbors_lenia 1 0 [1, 2, 3, 4, 5, 6, 7, 8, 9] 3 3 true ring_filter = 41 := by
  decide

/-- Claim C6: for every grid, topology and in-range position, the
live-neighbor count is at most 8 (it is a natural number, so at least 0). -/
theorem count_neighbors_le_eight (row col : Nat) (cells : List Nat) (rows cols : Nat)
    (toric : Bool) (hrow : row < rows) (hcol : col < cols)
    (hlen : cells.length = rows * cols) :
    grid_count_neighbors_conways row col cells rows cols toric ≤ 8 := by
  have h1 := count_term_le_one cells rows cols toric row col ((row : Int) - 1) ((col : Int) - 1)
  have h2 := count_term_le_one cells rows cols toric row col ((row : Int) - 1) ((col : Int))
  have h3 := count_term_le_one cells rows cols toric row col ((row : Int) - 1) ((col : Int) + 1)
  have h4 := count_term_le_one cells rows cols toric row col ((row : Int)) ((col : Int) - 1)
  have h5 := count_term_center cells rows cols toric row col
  have h6 := count_term_le_one cells rows cols toric row col ((row : Int)) ((col : Int) + 1)
  have h7 := count_term_le_one cells rows cols toric row col ((row : Int) + 1) ((col : Int) - 1)
  have h8 := count_term_le_one cells rows cols toric row col ((row : Int) + 1) ((col : Int))
  have h9 := count_term_le_one cells rows cols toric row col ((row : Int) + 1) ((col : Int) + 1)
  simp only [grid_count_neighbors_conways, neighborRange, List.foldl]
  omega

/-- Witness for claim C6 on a fully live 3 by 3 toroidal grid. -/
theorem count_neighbors_le_eight_witness :
    grid_count_neighbors_conways 1 1 [1, 1, 1, 1, 1, 1, 1, 1, 1] 3 3 true ≤ 8 :=
  count_neighbors_le_eight 1 1 [1, 1, 1, 1, 1, 1, 1, 1, 1] 3 3 true
    (by decide) (by decide) (by decide)

/-- Claim C7: two toggles restore the alive or dead classification of a
cell, even though a stored value above 1 comes back as 1, not as itself. -/
theorem toggle_twice_restores_alive (current_cells : List Nat) (cols row col : Nat)
    (hidx : grid_index row col cols < current_cells.length) :
    grid_is_alive row col
        (grid_toggle_cell_state row col (grid_toggle_cell_state row col current_cells cols) cols)
        cols
      = grid_is_alive row col current_cells cols := by
  unfold grid_is_alive grid_toggle_cell_state
  rw [getD_set_self _ _ _ (by rw [List.length_set]; exact hidx)]
  rw [getD_set_self _ _ _ hidx]
  by_cases h : 1 ≤ current_cells.getD (grid_index row col cols) 0
  · rw [if_pos h, if_neg (by omega)]
    rw [List.getD_eq_getElem?_getD] at h
    simp [h]
  · rw [if_neg h, if_pos (by omega)]
    rw [List.getD_eq_getElem?_getD] at h
    simp [h]

/-- Witness for claim C7 on a cell holding the value 7. -/
theorem toggle_twice_restores_alive_witness :
    grid_is_alive 0 1
        (grid_toggle_cell_state 0 1 (grid_toggle_cell_state 0 1 [0, 7, 0, 0] 2) 2) 2
      = grid_is_alive 0 1 [0, 7, 0, 0] 2 :=
  toggle_twice_restores_alive [0, 7, 0, 0] 2 0 1 (by decide)

/-- Claim C8: every cell of a randomly constructed discrete grid is 0
or 1, and every cell of a randomly constructed continuous grid is at most
254 — the value 255 is never generated. -/
theorem new_random_value_ranges (rng : Nat → Nat) (rows cols : Nat) (toric : Bool) :
    (∀ v ∈ (conways_new_random rng rows cols toric).current_cells, v = 0 ∨ v = 1)
    ∧ ∀ v ∈ (lenia_new_random rng rows cols toric).current_cells, v ≤ 254 := by
  constructor <;> intro v hv <;>
    simp only [conways_new_random, lenia_new_random, List.mem_map] at hv <;>
    obtain ⟨k, hk, rfl⟩ := hv <;> omega

/-- Witness for claim C8 with a concrete one-cell draw. -/
theorem new_random_value_ranges_witness :
    ((1 : Nat) = 0 ∨ (1 : Nat) = 1) ∧ (1 : Nat) ≤ 254 :=
  ⟨(new_random_value_ranges (fun _ => 1) 1 1 true).1 1 (by decide),
   (new_random_value_ranges (fun _ => 1) 1 1 true).2 1 (by decide)⟩

/-- Claim C9: on a 1 by 1 toroidal grid whose single cell is alive, all
eight wrapped neighbor slots point back to the cell itself while only the
unwrapped center is excluded, so the count is 8. -/
theorem toric_one_by_one_counts_self_eight :
    grid_count_neighbors_conways 0 0 [1] 1 1 true = 8 := by decide

/-- Claim C10: set_cell writes exactly the entry at row * cols + col; every
other entry, the scratch buffer, the dimensions and the topology flag are
unchanged. -/
theorem set_cell_frame (g : Grid) (row col v : Nat)
    (hrow : row < g.rows) (hcol : col < g.cols)
    (hlen : g.current_cells.length = g.rows * g.cols) :
    ((g.set_cell_state row col v).current_cells).getD (grid_index row col g.cols) 0 = v
    ∧ (∀ j, j ≠ grid_index row col g.cols →
        ((g.set_cell_state row col v).current_cells).getD j 0 = g.current_cells.getD j 0)
    ∧ ((g.set_cell_state row col v).current_cells).length = g.current_cells.length
    ∧ (g.set_cell_state row col v).next_cells = g.next_cells
    ∧ (g.set_cell_state row col v).rows = g.rows
    ∧ (g.set_cell_state row col v).cols = g.cols
    ∧ (g.set_cell_state row col v).toricgrid = g.toricgrid := by
  refine ⟨?_, ?_, ?_, rfl, rfl, rfl, rfl⟩
  · show (g.current_cells.set (grid_index row col g.cols) v).getD (grid_index row col g.cols) 0 = v
    apply getD_set_self
    rw [hlen]
    exact grid_index_lt row col g.rows g.cols hrow hcol
  · intro j hj
    show (g.current_cells.set (grid_index row col g.cols) v).getD j 0 = g.current_cells.getD j 0
    exact getD_set_ne _ _ _ _ (fun h => hj h.symm)
  · show (g.current_cells.set (grid_index row col g.cols) v).length = g.current_cells.length
    exact List.length_set _ _ _

/-- Witness for claim C10 on the concrete blinker grid. -/
theorem set_cell_frame_witness :
    ((blinker_grid.set_cell_state 0 2 9).current_cells).getD (grid_index 0 2 3) 0 = 9
    ∧ (∀ j, j ≠ grid_index 0 2 3 →
        ((blinker_grid.set_cell_state 0 2 9).current_cells).getD j 0
          = blinker_grid.current_cells.getD j 0)
    ∧ ((blinker_grid.set_cell_state 0 2 9).current_cells).length
        = blinker_grid.current_cells.length
    ∧ (blinker_grid.set_cell_state 0 2 9).next_cells = blinker_grid.next_cells
    ∧ (blinker_grid.set_cell_state 0 2 9).rows = blinker_grid.rows
    ∧ (blinker_grid.set_cell_state 0 2 9).cols = blinker_grid.cols
    ∧ (blinker_grid.set_cell_state 0 2 9).toricgrid = blinker_grid.toricgrid :=
  set_cell_frame blinker_grid 0 2 9 (by decide) (by decide) (by decide)

end Lifers
